import Mathlib

/-!
# Videoflix HLS pipeline — verification of the spec against the code

Shallow embedding of the HLS transcoding/serving pipeline of the Videoflix
backend (`apps/content_app`): path helpers and validators (`utils.py`),
the transcode and cleanup workers (`tasks.py`), the commit-gated dispatcher
(`utils.enqueue_after_commit`), the deletion signal handler (`signals.py`)
and the two HLS-serving views (`api/views.py`).

Conventions of the embedding:
- Paths are plain strings; `pathlib.Path` normalisation is elided (the paths
  the pipeline builds are already in normal form: they come from appending
  suffixes such as `_480p` or `/index.m3u8` to a stored file path).
- The filesystem is an explicit state: a list of existing files and a list of
  existing directories.  `mkdir` appends, `shutil.rmtree` filters; the
  contents of a directory tree are not modelled (no claim needs them).
- The external encoder (`subprocess.run`) is an oracle `runExit` mapping the
  full command argument vector to its exit status; `check=True` turns a
  non-zero status into a raised `CalledProcessError`, modelled as
  `Outcome.exc`.
- Python's `re` semantics for the segment pattern `^segment_\d{3}\.ts$` are
  reproduced exactly, including that `$` also matches just before a single
  newline at the end of the string.  `\d` is modelled as an ASCII digit;
  Python's `\d` additionally matches non-ASCII Unicode decimal digits, a
  distinction none of the claims' inputs exercise.
-/

deriving instance DecidableEq for Except

namespace Videoflix

/-! ## Path helpers (`apps/content_app/utils.py`) -/

/-- Index of the last occurrence of a character in a list (Python `str.rfind`),
`none` when absent. -/
def lastIdxOf (c : Char) : List Char → Option Nat
  | [] => none
  | x :: xs =>
    match lastIdxOf c xs with
    | some i => some (i + 1)
    | none => if x = c then some 0 else none

/-- `utils.video_base_path`: strip the extension from a path, following
`posixpath.splitext` — the extension starts at the last dot that lies after
the last path separator, provided the basename has a non-dot character
before that dot (so `.bashrc` keeps its name). -/
def video_base_path (p : String) : String :=
  let l := p.data
  match lastIdxOf '.' l with
  | none => p
  | some d =>
    let sepOk := match lastIdxOf '/' l with
      | none => true
      | some sep => decide (sep < d)
    let fIdx := match lastIdxOf '/' l with
      | none => 0
      | some sep => sep + 1
    if sepOk && ((l.drop fIdx).take (d - fIdx)).any (fun c => c != '.') then
      String.mk (l.take d)
    else p

/-- `utils.hls_output_dir`: `f"{base}_{resolution}"`. -/
def hls_output_dir (video_file_path resolution : String) : String :=
  video_base_path video_file_path ++ "_" ++ resolution

/-- `utils.hls_playlist_path`: `hls_output_dir(...) / "index.m3u8"`. -/
def hls_playlist_path (video_file_path resolution : String) : String :=
  hls_output_dir video_file_path resolution ++ "/index.m3u8"

/-- `Path(p).parent` for the paths in scope: everything before the last `/`,
`"."` when there is no separator. -/
def parentDir (p : String) : String :=
  match lastIdxOf '/' p.data with
  | none => "."
  | some 0 => "/"
  | some i => String.mk (p.data.take i)

/-! ## Validators (`apps/content_app/utils.py`) -/

/-- `utils.ALLOWED_RESOLUTIONS = {"480p": 480, "720p": 720, "1080p": 1080}`,
an insertion-ordered mapping. -/
def ALLOWED_RESOLUTIONS : List (String × Nat) :=
  [("480p", 480), ("720p", 720), ("1080p", 1080)]

/-- `utils.validate_resolution`: raises `ValueError("Invalid resolution.")`
unless the label is a key of `ALLOWED_RESOLUTIONS`. -/
def validate_resolution (resolution : String) : Except String Unit :=
  if (ALLOWED_RESOLUTIONS.map Prod.fst).contains resolution then Except.ok ()
  else Except.error "Invalid resolution."

/-- Consume a literal prefix: `dropLit pre l = some rest` when `l = pre ++ rest`. -/
def dropLit : List Char → List Char → Option (List Char)
  | [], l => some l
  | _ :: _, [] => none
  | c :: cs, x :: xs => if x = c then dropLit cs xs else none

/-- The regex `segment_\d{3}\.ts` applied at the start of the input
(`re.match` anchors at position 0): returns the unconsumed remainder when the
input starts with `segment_`, three digits and `.ts`. -/
def segMatchRest (l : List Char) : Option (List Char) :=
  match dropLit "segment_".data l with
  | none => none
  | some l1 =>
    match l1 with
    | d1 :: d2 :: d3 :: l2 =>
      if d1.isDigit && d2.isDigit && d3.isDigit then dropLit ".ts".data l2
      else none
    | _ => none

/-- `utils.SEGMENT_RE.match(s)` for `SEGMENT_RE = re.compile(r"^segment_\d{3}\.ts$")`:
in Python (without `re.MULTILINE`) `$` matches at the end of the string and
also just before a newline that ends the string, so the remainder after the
pattern may be empty or a single `'\n'`. -/
def SEGMENT_RE_match (s : String) : Bool :=
  match segMatchRest s.data with
  | some rest => rest == [] || rest == ['\n']
  | none => false

/-- `utils.validate_segment_name`: raises `ValueError("Invalid segment name.")`
unless `SEGMENT_RE` matches. -/
def validate_segment_name (segment : String) : Except String Unit :=
  if SEGMENT_RE_match segment then Except.ok ()
  else Except.error "Invalid segment name."

/-- Spec-side pattern for claim C4, written from the spec's words: the name is
exactly `segment_`, then exactly three digits, then exactly `.ts`, with
nothing before or after. -/
def segmentNameSpec (s : String) : Bool :=
  match dropLit "segment_".data s.data with
  | none => false
  | some l1 =>
    match l1 with
    | d1 :: d2 :: d3 :: rest =>
      d1.isDigit && d2.isDigit && d3.isDigit && (rest == ".ts".data)
    | _ => false

/-! ## Filesystem state -/

/-- Explicit filesystem state: the files and directories that exist. -/
structure FS where
  files : List String
  dirs : List String
deriving DecidableEq

/-- `os.path.exists`: true for an existing file or directory. -/
def FS.pathExists (fs : FS) (p : String) : Bool :=
  fs.files.contains p || fs.dirs.contains p

/-- `Path.mkdir(parents=True, exist_ok=True)`: record the directory as
existing (ancestor creation and deduplication are observationally irrelevant
here: only membership and removal are ever read off `dirs`). -/
def FS.addDir (fs : FS) (d : String) : FS :=
  { fs with dirs := fs.dirs ++ [d] }

/-- `shutil.rmtree(d, ignore_errors=True)` when it succeeds: the directory
(and, in the flat model, its tree) stops existing. -/
def FS.removeDir (fs : FS) (d : String) : FS :=
  { fs with dirs := fs.dirs.filter (fun x => x != d) }

/-! ## Transcode worker (`apps/content_app/tasks.py`) -/

/-- Result of running a Python callable: normal return or a raised exception. -/
inductive Outcome where
  | ok : Outcome
  | exc : String → Outcome
deriving DecidableEq

/-- Ambient configuration and the encoder oracle: `FFMPEG_BIN` is the
optional Django setting read by `getattr(settings, "FFMPEG_BIN", "ffmpeg")`,
and `runExit cmd` is the exit status `subprocess.run(cmd)` would observe. -/
structure ConvEnv where
  FFMPEG_BIN : Option String
  runExit : List String → Nat

/-- State threaded through a conversion: the filesystem plus the list of
encoder command vectors actually handed to `subprocess.run`, in order. -/
structure ConvState where
  fs : FS
  invocations : List (List String)
deriving DecidableEq

/-- `tasks._ffmpeg_cmd`: the exact argument vector built for one resolution. -/
def ffmpeg_cmd (ffmpeg source : String) (height : Nat)
    (segment_tpl playlist : String) : List String :=
  [ffmpeg, "-y",
   "-i", source,
   "-vf", "scale=-2:" ++ toString height,
   "-c:v", "libx264",
   "-preset", "medium",
   "-crf", "23",
   "-c:a", "aac",
   "-b:a", "128k",
   "-f", "hls",
   "-hls_time", "6",
   "-hls_playlist_type", "vod",
   "-hls_flags", "independent_segments",
   "-hls_segment_filename", segment_tpl,
   playlist]

/-- `tasks._convert_single_resolution`: create the output directory, build the
command, run the encoder; `check=True` raises `CalledProcessError` on a
non-zero exit status (after the invocation has happened). -/
def convert_single_resolution (env : ConvEnv) (st : ConvState)
    (source label : String) (height : Nat) : ConvState × Outcome :=
  let out_dir := hls_output_dir source label
  let st1 : ConvState := { st with fs := st.fs.addDir out_dir }
  let playlist := out_dir ++ "/index.m3u8"
  let segment_tpl := out_dir ++ "/segment_%03d.ts"
  let ffmpeg := env.FFMPEG_BIN.getD "ffmpeg"
  let cmd := ffmpeg_cmd ffmpeg source height segment_tpl playlist
  let st2 : ConvState := { st1 with invocations := st1.invocations ++ [cmd] }
  if env.runExit cmd = 0 then (st2, Outcome.ok)
  else (st2, Outcome.exc "CalledProcessError")

/-- The `for label, height in ALLOWED_RESOLUTIONS.items()` loop of
`tasks.convert_video_to_hls`: an exception from one resolution propagates and
ends the loop. -/
def convLoop (env : ConvEnv) (source : String) :
    ConvState → List (String × Nat) → ConvState × Outcome
  | st, [] => (st, Outcome.ok)
  | st, (label, height) :: rest =>
    match convert_single_resolution env st source label height with
    | (st1, Outcome.ok) => convLoop env source st1 rest
    | (st1, Outcome.exc m) => (st1, Outcome.exc m)

/-- `tasks._ensure_parent_dirs`: `Path(p).parent.mkdir(parents=True, exist_ok=True)`. -/
def ensure_parent_dirs (st : ConvState) (video_file_path : String) : ConvState :=
  { st with fs := st.fs.addDir (parentDir video_file_path) }

/-- `tasks.convert_video_to_hls`: a missing or empty source path is a logged
no-op; otherwise ensure the parent directory and convert every allowed
resolution in insertion order. -/
def convert_video_to_hls (env : ConvEnv) (st : ConvState)
    (video_file_path : String) : ConvState × Outcome :=
  if video_file_path = "" ∨ st.fs.pathExists video_file_path = false then
    (st, Outcome.ok)
  else
    convLoop env video_file_path (ensure_parent_dirs st video_file_path)
      ALLOWED_RESOLUTIONS

/-- The command vector `convert_single_resolution` hands to the encoder for a
given binary, source and resolution (a reading off of its `let` bindings,
used to state properties about recorded invocations). -/
def convCmd (ffmpeg source label : String) (height : Nat) : List String :=
  ffmpeg_cmd ffmpeg source height
    (hls_output_dir source label ++ "/segment_%03d.ts")
    (hls_output_dir source label ++ "/index.m3u8")

/-! ## Cleanup worker (`apps/content_app/tasks.py`) -/

/-- Deletion oracle: whether `shutil.rmtree` on a directory fails (permissions,
in-use handles); with `ignore_errors=True` such a failure is swallowed and the
directory is conservatively modelled as remaining. -/
structure CleanEnv where
  rmtreeFails : String → Bool

/-- The `for label in ALLOWED_RESOLUTIONS.keys()` loop of
`tasks.delete_hls_outputs`: remove each existing `f"{base}_{label}"` folder,
ignoring per-directory failures. -/
def delLoop (env : CleanEnv) (base : String) : FS → List String → FS
  | fs, [] => fs
  | fs, label :: rest =>
    let folder := base ++ "_" ++ label
    let fs1 :=
      if fs.dirs.contains folder then
        if env.rmtreeFails folder then fs else fs.removeDir folder
      else fs
    delLoop env base fs1 rest

/-- `tasks.delete_hls_outputs`: no-op on an empty path, otherwise best-effort
removal of every resolution output folder; never raises. -/
def delete_hls_outputs (env : CleanEnv) (fs : FS)
    (video_file_path : String) : FS × Outcome :=
  if video_file_path = "" then (fs, Outcome.ok)
  else
    (delLoop env (video_base_path video_file_path) fs
      (ALLOWED_RESOLUTIONS.map Prod.fst), Outcome.ok)

/-! ## Job queue and commit-gated dispatcher (`apps/content_app/utils.py`) -/

/-- `rq.Retry`: bounded-retry policy attached to an enqueued job. -/
structure Retry where
  max : Nat
  interval : List Nat
deriving DecidableEq

/-- `utils.DEFAULT_RETRY = Retry(max=3, interval=[10, 30, 60])`. -/
def DEFAULT_RETRY : Retry := { max := 3, interval := [10, 30, 60] }

/-- A job as submitted to the external queue by
`django_rq.get_queue(queue).enqueue(task, *args, retry=DEFAULT_RETRY)`.
Task callables are identified by name; arguments are the path strings the
pipeline passes. -/
structure Job where
  task : String
  args : List String
  queue : String
  retry : Retry
deriving DecidableEq

/-- A callback registered with `transaction.on_commit`: the queue name and the
task call it will submit when fired. -/
structure PendingEnqueue where
  queue : String
  task : String
  args : List String
deriving DecidableEq

/-- Dispatcher state: callbacks registered against the current transaction
(`pending`) and jobs already submitted to the external queue (`queued`). -/
structure DispatchState where
  pending : List PendingEnqueue
  queued : List Job
deriving DecidableEq

/-- `utils.enqueue_after_commit(task, *args, queue=...)`: registers an
`_enqueue` closure with `transaction.on_commit`; nothing reaches the queue
yet. -/
def enqueue_after_commit (task : String) (args : List String) (queue : String)
    (w : DispatchState) : DispatchState :=
  { w with pending := w.pending ++ [{ queue := queue, task := task, args := args }] }

/-- Firing one registered `_enqueue` closure: submit the job to its named
queue with `retry=DEFAULT_RETRY`. -/
def fireEnqueue (cb : PendingEnqueue) : Job :=
  { task := cb.task, args := cb.args, queue := cb.queue, retry := DEFAULT_RETRY }

/-- The enclosing transaction commits: every `on_commit` callback fires, in
registration order, and the registrations are consumed. -/
def commitTransaction (w : DispatchState) : DispatchState :=
  { pending := [], queued := w.queued ++ w.pending.map fireEnqueue }

/-! ## Deletion signal handler (`apps/content_app/signals.py`) -/

/-- The slice of a `Video` model instance the deletion handler reads: the
attached file paths, `none` when no file is attached (a `FieldFile` with no
name is falsy and accessing `.path` would be invalid). -/
structure VideoInstance where
  video_file : Option String
  thumbnail_url : Option String

/-- `signals.video_deleted_cleanup_files`: on `post_delete`, enqueue removal
of the HLS outputs and of the source file only when the source file exists on
disk, and removal of the thumbnail only when the thumbnail file exists. -/
def video_deleted_cleanup_files (fs : FS) (inst : VideoInstance)
    (w : DispatchState) : DispatchState :=
  let w1 :=
    match inst.video_file with
    | some p =>
      if fs.files.contains p then
        enqueue_after_commit "safe_remove" [p] "default"
          (enqueue_after_commit "delete_hls_outputs" [p] "default" w)
      else w
    | none => w
  match inst.thumbnail_url with
  | some t =>
    if fs.files.contains t then
      enqueue_after_commit "safe_remove" [t] "default" w1
    else w1
  | none => w1

/-! ## Streaming server (`apps/content_app/api/views.py`) -/

/-- An HTTP response from the HLS views: a streamed file (with content type
and status) or a DRF `NotFound` (status 404 with a detail string). -/
inductive HttpResponse where
  | file : String → String → Nat → HttpResponse
  | notFound : String → HttpResponse
deriving DecidableEq

/-- HTTP status code of a response (`rest_framework.exceptions.NotFound`
renders as 404). -/
def HttpResponse.status : HttpResponse → Nat
  | HttpResponse.file _ _ s => s
  | HttpResponse.notFound _ => 404

/-- `views._get_video`: look a video's file path up by id (`Video.objects.get`),
`none` meaning `Video.DoesNotExist`. The database is modelled as an id→path
association list (ids are unique primary keys). -/
def get_video (db : List (Nat × String)) (movie_id : Nat) : Option String :=
  db.lookup movie_id

/-- `views.HLSPlaylistView.get`: video lookup, resolution validation (mapped
to 404), then serve `index.m3u8` if it exists. -/
def HLSPlaylistView_get (db : List (Nat × String)) (fs : FS)
    (movie_id : Nat) (resolution : String) : HttpResponse :=
  match get_video db movie_id with
  | none => HttpResponse.notFound "Video not found."
  | some path =>
    match validate_resolution resolution with
    | Except.error _ => HttpResponse.notFound "Video or Manifest not found."
    | Except.ok _ =>
      let playlist := hls_playlist_path path resolution
      if fs.pathExists playlist then
        HttpResponse.file playlist "application/vnd.apple.mpegurl" 200
      else HttpResponse.notFound "HLS Playlist not found."

/-- `views.HLSSegmentView.get`: video lookup, resolution and segment-name
validation (each mapped to 404), then serve the segment if it exists. -/
def HLSSegmentView_get (db : List (Nat × String)) (fs : FS)
    (movie_id : Nat) (resolution segment : String) : HttpResponse :=
  match get_video db movie_id with
  | none => HttpResponse.notFound "Video not found."
  | some path =>
    match validate_resolution resolution with
    | Except.error _ => HttpResponse.notFound "Video or Manifest not found."
    | Except.ok _ =>
      match validate_segment_name segment with
      | Except.error _ => HttpResponse.notFound "Video or Segment not found."
      | Except.ok _ =>
        let seg := hls_output_dir path resolution ++ "/" ++ segment
        if fs.pathExists seg then
          HttpResponse.file seg "video/MP2T" 200
        else HttpResponse.notFound "Segment not found."

/-! ## Helper lemmas: the segment-name pattern -/

lemma dropLit_eq_some_iff (p : List Char) :
    ∀ {l r : List Char}, dropLit p l = some r ↔ l = p ++ r := by
  induction p with
  | nil => intro l r; simp [dropLit]
  | cons c cs ih =>
    intro l r
    cases l with
    | nil => simp [dropLit]
    | cons x xs =>
      by_cases hx : x = c
      · subst hx; simp [dropLit, ih]
      · simp [dropLit, hx]

lemma segMatchRest_eq_some_iff {l rest : List Char} :
    segMatchRest l = some rest ↔
      ∃ d1 d2 d3 : Char, (d1.isDigit && d2.isDigit && d3.isDigit) = true ∧
        l = "segment_".data ++ [d1, d2, d3] ++ ".ts".data ++ rest := by
  unfold segMatchRest
  cases h : dropLit "segment_".data l with
  | none =>
    refine iff_of_false (by simp) ?_
    rintro ⟨d1, d2, d3, -, rfl⟩
    have h2 : dropLit "segment_".data
        ("segment_".data ++ [d1, d2, d3] ++ ".ts".data ++ rest)
        = some ([d1, d2, d3] ++ (".ts".data ++ rest)) :=
      (dropLit_eq_some_iff _).mpr (by simp)
    rw [h] at h2
    cases h2
  | some l1 =>
    rw [dropLit_eq_some_iff] at h
    subst h
    rcases l1 with - | ⟨d1, - | ⟨d2, - | ⟨d3, l2⟩⟩⟩
    · simp
    · simp
    · simp
    · dsimp only
      by_cases hd : (d1.isDigit && d2.isDigit && d3.isDigit) = true
      · rw [if_pos hd, dropLit_eq_some_iff]
        constructor
        · intro hl2
          exact ⟨d1, d2, d3, hd, by simp [hl2]⟩
        · rintro ⟨e1, e2, e3, hed, heq⟩
          simp only [List.append_assoc, List.append_right_inj,
            List.cons.injEq] at heq
          obtain ⟨rfl, rfl, rfl, rfl⟩ := heq
          simp
      · rw [if_neg hd]
        refine iff_of_false (by simp) ?_
        rintro ⟨e1, e2, e3, hed, heq⟩
        simp only [List.append_assoc, List.append_right_inj,
          List.cons.injEq] at heq
        obtain ⟨rfl, rfl, rfl, -⟩ := heq
        exact hd hed

lemma SEGMENT_RE_match_iff (s : String) :
    SEGMENT_RE_match s = true ↔
      segMatchRest s.data = some [] ∨ segMatchRest s.data = some ['\n'] := by
  unfold SEGMENT_RE_match
  cases h : segMatchRest s.data with
  | none => simp
  | some rest => simp [h]

lemma segmentNameSpec_iff (s : String) :
    segmentNameSpec s = true ↔ segMatchRest s.data = some [] := by
  unfold segmentNameSpec segMatchRest
  cases h : dropLit "segment_".data s.data with
  | none => simp
  | some l1 =>
    rcases l1 with - | ⟨d1, - | ⟨d2, - | ⟨d3, rest⟩⟩⟩
    · simp
    · simp
    · simp
    · dsimp only
      by_cases hd : (d1.isDigit && d2.isDigit && d3.isDigit) = true
      · rw [if_pos hd, dropLit_eq_some_iff]
        simp [hd, beq_iff_eq]
      · rw [if_neg hd]
        simp only [Bool.and_eq_true] at hd ⊢
        refine iff_of_false ?_ (by simp)
        intro hcontra
        exact hd ⟨⟨hcontra.1.1.1, hcontra.1.1.2⟩, hcontra.1.2⟩

lemma validate_segment_name_ok_iff (s : String) :
    validate_segment_name s = Except.ok () ↔ SEGMENT_RE_match s = true := by
  unfold validate_segment_name
  by_cases h : SEGMENT_RE_match s = true
  · rw [if_pos h]; simp [h]
  · rw [if_neg h]; simp [h]

lemma contains_resolution_iff (r : String) :
    ((ALLOWED_RESOLUTIONS.map Prod.fst).contains r = true) ↔
      (r = "480p" ∨ r = "720p" ∨ r = "1080p") := by
  simp [ALLOWED_RESOLUTIONS, List.contains]

/-! ## Claim theorems -/

/-- C4, counterexample: `validate_segment_name` accepts
`"segment_000.ts\n"`, a string with a trailing character (Python's `$`
matches just before a newline that ends the string), although the claimed
exact pattern rejects it. -/
theorem C4_counterexample :
    validate_segment_name "segment_000.ts\n" = Except.ok () ∧
      segmentNameSpec "segment_000.ts\n" = false := by decide

/-- C4, amended: `validateSegmentName` succeeds iff the name is exactly
`segment_` followed by exactly 3 digits followed by `.ts`, or that exact
pattern followed by one trailing newline; every other string — extra path
components, other extensions, other digit counts, or any other trailing
characters — is rejected. -/
theorem C4_segment_name_amended (s : String) :
    validate_segment_name s = Except.ok () ↔
      (segmentNameSpec s = true ∨
        ∃ t : String, segmentNameSpec t = true ∧ s = t ++ "\n") := by
  rw [validate_segment_name_ok_iff, SEGMENT_RE_match_iff]
  constructor
  · rintro (h | h)
    · exact Or.inl ((segmentNameSpec_iff s).mpr h)
    · rw [segMatchRest_eq_some_iff] at h
      obtain ⟨d1, d2, d3, hd, hl⟩ := h
      refine Or.inr ⟨String.mk ("segment_".data ++ [d1, d2, d3] ++ ".ts".data),
        ?_, ?_⟩
      · rw [segmentNameSpec_iff, segMatchRest_eq_some_iff]
        exact ⟨d1, d2, d3, hd, by simp⟩
      · apply String.ext
        simp [String.data_append, hl]
  · rintro (h | ⟨t, ht, rfl⟩)
    · exact Or.inl ((segmentNameSpec_iff s).mp h)
    · right
      rw [segmentNameSpec_iff, segMatchRest_eq_some_iff] at ht
      obtain ⟨d1, d2, d3, hd, hl⟩ := ht
      rw [segMatchRest_eq_some_iff]
      refine ⟨d1, d2, d3, hd, ?_⟩
      simp [String.data_append, hl]

/-- C4, witness: the amended characterisation at concrete inputs —
`segment_000.ts` is accepted and matches the exact pattern. -/
theorem C4_amended_witness :
    validate_segment_name "segment_000.ts" = Except.ok () :=
  (C4_segment_name_amended "segment_000.ts").mpr (Or.inl (by decide))

/-- C5: `validate_resolution` accepts exactly the labels `480p`, `720p`,
`1080p`; every other string is rejected with the `Invalid resolution.`
error. -/
theorem C5_validate_resolution_exact (resolution : String) :
    (validate_resolution resolution = Except.ok () ↔
      (resolution = "480p" ∨ resolution = "720p" ∨ resolution = "1080p")) ∧
    (¬(resolution = "480p" ∨ resolution = "720p" ∨ resolution = "1080p") →
      validate_resolution resolution = Except.error "Invalid resolution.") := by
  constructor
  · unfold validate_resolution
    by_cases hc : (ALLOWED_RESOLUTIONS.map Prod.fst).contains resolution = true
    · rw [if_pos hc]
      exact iff_of_true rfl ((contains_resolution_iff resolution).mp hc)
    · rw [if_neg hc]
      exact iff_of_false (by simp)
        (fun hr => hc ((contains_resolution_iff resolution).mpr hr))
  · intro h
    unfold validate_resolution
    rw [if_neg (fun hc => h ((contains_resolution_iff resolution).mp hc))]

/-- C5, witness: `999p` (a numeric-only non-label) is rejected with the
`Invalid resolution.` error. -/
theorem C5_witness :
    validate_resolution "999p" = Except.error "Invalid resolution." :=
  (C5_validate_resolution_exact "999p").2 (by decide)

/-! ## Helper lemmas: the conversion loop -/

lemma convert_single_resolution_eq (env : ConvEnv) (st : ConvState)
    (source label : String) (height : Nat) :
    convert_single_resolution env st source label height
      = ({ fs := st.fs.addDir (hls_output_dir source label),
           invocations := st.invocations
             ++ [convCmd (env.FFMPEG_BIN.getD "ffmpeg") source label height] },
         if env.runExit (convCmd (env.FFMPEG_BIN.getD "ffmpeg") source label height) = 0
           then Outcome.ok else Outcome.exc "CalledProcessError") := by
  simp only [convert_single_resolution, convCmd]
  split <;> rfl

lemma convLoop_fail (env : ConvEnv) (source label : String) (height : Nat)
    (post : List (String × Nat)) :
    ∀ (pre : List (String × Nat)) (st : ConvState),
    (∀ p ∈ pre, env.runExit (convCmd (env.FFMPEG_BIN.getD "ffmpeg") source p.1 p.2) = 0) →
    env.runExit (convCmd (env.FFMPEG_BIN.getD "ffmpeg") source label height) ≠ 0 →
    convLoop env source st (pre ++ (label, height) :: post)
      = ({ fs := { files := st.fs.files,
                   dirs := st.fs.dirs
                     ++ pre.map (fun p => hls_output_dir source p.1)
                     ++ [hls_output_dir source label] },
           invocations := st.invocations
             ++ pre.map (fun p => convCmd (env.FFMPEG_BIN.getD "ffmpeg") source p.1 p.2)
             ++ [convCmd (env.FFMPEG_BIN.getD "ffmpeg") source label height] },
         Outcome.exc "CalledProcessError") := by
  intro pre
  induction pre with
  | nil =>
    intro st hprev hfail
    simp only [List.nil_append, convLoop, convert_single_resolution_eq,
      if_neg hfail]
    simp [FS.addDir]
  | cons p pre' ih =>
    intro st hprev hfail
    obtain ⟨pl, ph⟩ := p
    have hp : env.runExit
        (convCmd (env.FFMPEG_BIN.getD "ffmpeg") source pl ph) = 0 :=
      hprev (pl, ph) (List.mem_cons_self _ _)
    simp only [List.cons_append, convLoop, convert_single_resolution_eq,
      if_pos hp, List.append_eq]
    rw [ih _ (fun q hq => hprev q (List.mem_cons_of_mem _ hq)) hfail]
    simp [FS.addDir, List.append_assoc]

/-! ## Concrete instances used by witnesses and counterexamples -/

/-- A filesystem in which only the source video `/v/m.mp4` exists. -/
def fsWithSource : FS := { files := ["/v/m.mp4"], dirs := [] }

/-- Initial conversion state over `fsWithSource`, no invocations yet. -/
def initSt : ConvState := { fs := fsWithSource, invocations := [] }

/-- Environment with default encoder binary whose every invocation succeeds. -/
def envAllOk : ConvEnv := { FFMPEG_BIN := none, runExit := fun _ => 0 }

/-- Environment in which exactly the `480p` encoder invocation for
`/v/m.mp4` fails. -/
def failEnv480 : ConvEnv :=
  { FFMPEG_BIN := none,
    runExit := fun cmd =>
      if cmd = convCmd "ffmpeg" "/v/m.mp4" "480p" 480 then 1 else 0 }

/-- Environment in which exactly the `720p` encoder invocation for
`/v/m.mp4` fails. -/
def failEnv720 : ConvEnv :=
  { FFMPEG_BIN := none,
    runExit := fun cmd =>
      if cmd = convCmd "ffmpeg" "/v/m.mp4" "720p" 720 then 1 else 0 }

/-! ## Claims on the transcode worker -/

/-- C1: with an existing source file, the resolutions are processed in the
insertion order of `ALLOWED_RESOLUTIONS`; when the encoder fails on one
resolution (`pre` being the successfully encoded prefix of the order), the
operation raises `CalledProcessError`, exactly the commands for `pre` and the
failing resolution have been invoked — no later resolution is attempted —
and the output directories of the earlier, successful resolutions (and of the
failing one) remain created. -/
theorem C1_fail_fast (env : ConvEnv) (st : ConvState) (source : String)
    (hne : source ≠ "") (hex : st.fs.pathExists source = true)
    (pre post : List (String × Nat)) (label : String) (height : Nat)
    (hsplit : ALLOWED_RESOLUTIONS = pre ++ (label, height) :: post)
    (hprev : ∀ p ∈ pre,
      env.runExit (convCmd (env.FFMPEG_BIN.getD "ffmpeg") source p.1 p.2) = 0)
    (hfail : env.runExit
      (convCmd (env.FFMPEG_BIN.getD "ffmpeg") source label height) ≠ 0) :
    (convert_video_to_hls env st source).2 = Outcome.exc "CalledProcessError" ∧
    (convert_video_to_hls env st source).1.invocations
      = st.invocations
        ++ pre.map (fun p => convCmd (env.FFMPEG_BIN.getD "ffmpeg") source p.1 p.2)
        ++ [convCmd (env.FFMPEG_BIN.getD "ffmpeg") source label height] ∧
    (∀ p ∈ pre,
      hls_output_dir source p.1 ∈ (convert_video_to_hls env st source).1.fs.dirs) ∧
    hls_output_dir source label ∈ (convert_video_to_hls env st source).1.fs.dirs := by
  have hcond : ¬(source = "" ∨ st.fs.pathExists source = false) := by
    rintro (h | h)
    · exact hne h
    · rw [h] at hex; simp at hex
  unfold convert_video_to_hls
  rw [if_neg hcond, hsplit,
    convLoop_fail env source label height post pre (ensure_parent_dirs st source)
      hprev hfail]
  refine ⟨rfl, rfl, ?_, ?_⟩
  · intro p hp
    simp only [ensure_parent_dirs, FS.addDir, List.mem_append]
    exact Or.inl (Or.inr (List.mem_map_of_mem _ hp))
  · simp

/-- C1, witness: with `480p` succeeding and `720p` failing, the run raises,
invokes exactly the `480p` and `720p` commands, and leaves the `480p`
directory created. -/
theorem C1_witness :
    (convert_video_to_hls failEnv720 initSt "/v/m.mp4").2
        = Outcome.exc "CalledProcessError" ∧
    (convert_video_to_hls failEnv720 initSt "/v/m.mp4").1.invocations
      = ([] : List (List String))
        ++ [("480p", 480)].map
            (fun p => convCmd "ffmpeg" "/v/m.mp4" p.1 p.2)
        ++ [convCmd "ffmpeg" "/v/m.mp4" "720p" 720] ∧
    (∀ p ∈ [("480p", (480 : Nat))],
      hls_output_dir "/v/m.mp4" p.1
        ∈ (convert_video_to_hls failEnv720 initSt "/v/m.mp4").1.fs.dirs) ∧
    hls_output_dir "/v/m.mp4" "720p"
      ∈ (convert_video_to_hls failEnv720 initSt "/v/m.mp4").1.fs.dirs :=
  C1_fail_fast failEnv720 initSt "/v/m.mp4" (by decide) (by decide)
    [("480p", 480)] [("1080p", 1080)] "720p" 720 (by decide)
    (by decide) (by decide)

/-- C6, counterexample: resolutions are not independent. With the source
present and the `480p` encoder invocation failing, the run stops after one
invocation: the `720p` and `1080p` output directories are never created and
their encoders are never invoked, so a failure on one resolution does
prevent the other resolutions' outputs from being produced. -/
theorem C6_counterexample :
    (convert_video_to_hls failEnv480 initSt "/v/m.mp4").2
        = Outcome.exc "CalledProcessError" ∧
    (convert_video_to_hls failEnv480 initSt "/v/m.mp4").1.invocations
        = [convCmd "ffmpeg" "/v/m.mp4" "480p" 480] ∧
    hls_output_dir "/v/m.mp4" "720p"
        ∉ (convert_video_to_hls failEnv480 initSt "/v/m.mp4").1.fs.dirs ∧
    hls_output_dir "/v/m.mp4" "1080p"
        ∉ (convert_video_to_hls failEnv480 initSt "/v/m.mp4").1.fs.dirs := by
  decide

/-- C6, amended: the per-resolution outputs are not independent — the loop is
fail-fast. When the encoder fails on one resolution (`pre` being the
successful prefix of the fixed order), the final state is exactly: the
starting files, the starting directories plus the parent directory, the
directories of `pre` and of the failing resolution, and the invocations of
`pre` and the failing resolution; resolutions after the failure leave no
trace, while the outputs of resolutions before the failure are unaffected. -/
theorem C6_amended (env : ConvEnv) (st : ConvState) (source : String)
    (hne : source ≠ "") (hex : st.fs.pathExists source = true)
    (pre post : List (String × Nat)) (label : String) (height : Nat)
    (hsplit : ALLOWED_RESOLUTIONS = pre ++ (label, height) :: post)
    (hprev : ∀ p ∈ pre,
      env.runExit (convCmd (env.FFMPEG_BIN.getD "ffmpeg") source p.1 p.2) = 0)
    (hfail : env.runExit
      (convCmd (env.FFMPEG_BIN.getD "ffmpeg") source label height) ≠ 0) :
    convert_video_to_hls env st source
      = ({ fs := { files := st.fs.files,
                   dirs := st.fs.dirs ++ [parentDir source]
                     ++ pre.map (fun p => hls_output_dir source p.1)
                     ++ [hls_output_dir source label] },
           invocations := st.invocations
             ++ pre.map (fun p => convCmd (env.FFMPEG_BIN.getD "ffmpeg") source p.1 p.2)
             ++ [convCmd (env.FFMPEG_BIN.getD "ffmpeg") source label height] },
         Outcome.exc "CalledProcessError") := by
  have hcond : ¬(source = "" ∨ st.fs.pathExists source = false) := by
    rintro (h | h)
    · exact hne h
    · rw [h] at hex; simp at hex
  unfold convert_video_to_hls
  rw [if_neg hcond, hsplit,
    convLoop_fail env source label height post pre (ensure_parent_dirs st source)
      hprev hfail]
  simp [ensure_parent_dirs, FS.addDir]

/-- C6, witness: the amended characterisation on a concrete run in which
`480p` succeeds and `720p` fails. -/
theorem C6_amended_witness :
    convert_video_to_hls failEnv720 initSt "/v/m.mp4"
      = ({ fs := { files := ["/v/m.mp4"],
                   dirs := ([] : List String) ++ ["/v"]
                     ++ [("480p", (480 : Nat))].map
                          (fun p => hls_output_dir "/v/m.mp4" p.1)
                     ++ [hls_output_dir "/v/m.mp4" "720p"] },
           invocations := ([] : List (List String))
             ++ [("480p", (480 : Nat))].map
                  (fun p => convCmd "ffmpeg" "/v/m.mp4" p.1 p.2)
             ++ [convCmd "ffmpeg" "/v/m.mp4" "720p" 720] },
         Outcome.exc "CalledProcessError") :=
  C6_amended failEnv720 initSt "/v/m.mp4" (by decide) (by decide)
    [("480p", 480)] [("1080p", 1080)] "720p" 720 (by decide)
    (by decide) (by decide)

/-- Spec-side encoder invocation contract for claim C7, written from the
spec's words (§4.3): configured binary, unconditional overwrite, the source
as input, auto-even-width scale to the target height, H.264 at preset
`medium` with CRF 23, AAC at 128 kbps, HLS container with 6-second segment
target, VOD playlist type, independent segments, the `segment_%03d.ts`
template inside the resolution's output directory and `index.m3u8` inside
that directory. -/
def encoderCmdSpec (bin source outDir : String) (height : Nat) : List String :=
  [bin, "-y",
   "-i", source,
   "-vf", "scale=-2:" ++ toString height,
   "-c:v", "libx264",
   "-preset", "medium",
   "-crf", "23",
   "-c:a", "aac",
   "-b:a", "128k",
   "-f", "hls",
   "-hls_time", "6",
   "-hls_playlist_type", "vod",
   "-hls_flags", "independent_segments",
   "-hls_segment_filename", outDir ++ "/segment_%03d.ts",
   outDir ++ "/index.m3u8"]

/-- C7: the command a single-resolution conversion hands to the encoder is
exactly the spec's contract, built over the configured binary (`ffmpeg` when
the `FFMPEG_BIN` setting is absent), the source, the resolution's output
directory and the target height. -/
theorem C7_encoder_command (env : ConvEnv) (st : ConvState)
    (source label : String) (height : Nat) :
    (convert_single_resolution env st source label height).1.invocations
      = st.invocations
        ++ [encoderCmdSpec (env.FFMPEG_BIN.getD "ffmpeg") source
              (hls_output_dir source label) height] := by
  rw [convert_single_resolution_eq]
  rfl

/-- C8: a conversion whose source path is empty or refers to a file that
does not exist is a no-op: no subprocess invocation, no directory creation,
no error — the state is returned unchanged with a normal outcome. -/
theorem C8_missing_source_noop (env : ConvEnv) (st : ConvState) (path : String)
    (h : path = "" ∨ st.fs.pathExists path = false) :
    convert_video_to_hls env st path = (st, Outcome.ok) := by
  unfold convert_video_to_hls
  rw [if_pos h]

/-- C8, witness: converting the nonexistent `/missing.mp4` over an empty
filesystem returns the state unchanged and raises nothing. -/
theorem C8_witness :
    convert_video_to_hls envAllOk
        { fs := { files := [], dirs := [] }, invocations := [] } "/missing.mp4"
      = ({ fs := { files := [], dirs := [] }, invocations := [] },
         Outcome.ok) :=
  C8_missing_source_noop envAllOk
    { fs := { files := [], dirs := [] }, invocations := [] } "/missing.mp4"
    (Or.inr (by decide))

/-! ## Claims on the dispatcher -/

/-- C2: `enqueue_after_commit` submits nothing to the queue at call time;
only when the enclosing transaction commits does the registered callback
fire, and the job it then submits goes to the named queue carrying exactly
the bounded-retry policy `Retry(max=3, interval=[10, 30, 60])`. -/
theorem C2_commit_gated_retry (w : DispatchState) (task : String)
    (args : List String) (queue : String) :
    (enqueue_after_commit task args queue w).queued = w.queued ∧
    (commitTransaction (enqueue_after_commit task args queue w)).queued
      = w.queued ++ w.pending.map fireEnqueue
        ++ [{ task := task, args := args, queue := queue,
              retry := { max := 3, interval := [10, 30, 60] } }] := by
  constructor
  · rfl
  · simp [commitTransaction, enqueue_after_commit, fireEnqueue, DEFAULT_RETRY]

/-! ## Claims on the cleanup worker -/

lemma delLoop_not_mem (env : CleanEnv) (base d : String) :
    ∀ (labels : List String) (fs : FS),
      d ∉ fs.dirs → d ∉ (delLoop env base fs labels).dirs := by
  intro labels
  induction labels with
  | nil => intro fs h; exact h
  | cons l rest ih =>
    intro fs h
    simp only [delLoop]
    by_cases hc : fs.dirs.contains (base ++ "_" ++ l) = true
    · by_cases hf : env.rmtreeFails (base ++ "_" ++ l) = true
      · rw [if_pos hc, if_pos hf]; exact ih fs h
      · rw [if_pos hc, if_neg hf]
        refine ih _ ?_
        intro hmem
        exact h (List.mem_of_mem_filter hmem)
    · rw [if_neg hc]; exact ih fs h

lemma delLoop_removes (env : CleanEnv) (base label : String) :
    ∀ (labels : List String) (fs : FS), label ∈ labels →
      env.rmtreeFails (base ++ "_" ++ label) = false →
      (base ++ "_" ++ label) ∉ (delLoop env base fs labels).dirs := by
  intro labels
  induction labels with
  | nil => intro fs h; simp at h
  | cons l rest ih =>
    intro fs hmem hok
    rcases List.mem_cons.mp hmem with heq | htail
    · subst heq
      simp only [delLoop]
      by_cases hc : fs.dirs.contains (base ++ "_" ++ label) = true
      · rw [if_pos hc, if_neg (by simp [hok])]
        refine delLoop_not_mem env base _ rest _ ?_
        simp [FS.removeDir, List.mem_filter]
      · rw [if_neg hc]
        refine delLoop_not_mem env base _ rest _ ?_
        intro hmem2
        exact hc (List.elem_iff.mpr hmem2)
    · simp only [delLoop]
      exact ih _ htail hok

lemma delLoop_noop (env : CleanEnv) (base : String) :
    ∀ (labels : List String) (fs : FS),
      (∀ l ∈ labels, (base ++ "_" ++ l) ∉ fs.dirs) →
      delLoop env base fs labels = fs := by
  intro labels
  induction labels with
  | nil => intro fs _; rfl
  | cons l rest ih =>
    intro fs h
    simp only [delLoop]
    rw [if_neg (fun hc => h l (List.mem_cons_self _ _) (List.elem_iff.mp hc))]
    exact ih fs (fun q hq => h q (List.mem_cons_of_mem _ hq))

/-- C9: `delete_hls_outputs` never raises; it is a no-op on an empty path and
when no resolution output directory exists; and for a nonempty path every
resolution output directory whose recursive deletion does not fail is gone
afterwards — failures on other directories (the `rmtreeFails` oracle is
arbitrary elsewhere) cannot prevent that removal. -/
theorem C9_cleanup_best_effort (env : CleanEnv) (fs : FS) (path : String) :
    (delete_hls_outputs env fs path).2 = Outcome.ok ∧
    (path = "" → (delete_hls_outputs env fs path).1 = fs) ∧
    (path ≠ "" → ∀ label ∈ ALLOWED_RESOLUTIONS.map Prod.fst,
      env.rmtreeFails (hls_output_dir path label) = false →
      hls_output_dir path label ∉ (delete_hls_outputs env fs path).1.dirs) ∧
    ((∀ label ∈ ALLOWED_RESOLUTIONS.map Prod.fst,
        hls_output_dir path label ∉ fs.dirs) →
      (delete_hls_outputs env fs path).1 = fs) := by
  refine ⟨?_, ?_, ?_, ?_⟩
  · unfold delete_hls_outputs
    split <;> rfl
  · intro h
    unfold delete_hls_outputs
    rw [if_pos h]
  · intro hne label hlabel hok
    unfold delete_hls_outputs
    rw [if_neg hne]
    exact delLoop_removes env (video_base_path path) label
      (ALLOWED_RESOLUTIONS.map Prod.fst) fs hlabel hok
  · intro h
    unfold delete_hls_outputs
    by_cases hp : path = ""
    · rw [if_pos hp]
    · rw [if_neg hp]
      exact delLoop_noop env (video_base_path path)
        (ALLOWED_RESOLUTIONS.map Prod.fst) fs h

/-- Cleanup oracle in which every recursive deletion succeeds. -/
def cleanOkEnv : CleanEnv := { rmtreeFails := fun _ => false }

/-- C9, witness: with deletion succeeding, the existing `480p` output
directory of `/v/m.mp4` is gone after cleanup. -/
theorem C9_witness :
    hls_output_dir "/v/m.mp4" "480p"
      ∉ (delete_hls_outputs cleanOkEnv
          { files := [], dirs := ["/v/m_480p"] } "/v/m.mp4").1.dirs :=
  (C9_cleanup_best_effort cleanOkEnv
      { files := [], dirs := ["/v/m_480p"] } "/v/m.mp4").2.2.1
    (by decide) "480p" (by decide) (by decide)

/-! ## Claims on the deletion signal handler -/

lemma contains_eq_true_iff {a : String} {l : List String} :
    l.contains a = true ↔ a ∈ l := by
  simp [List.contains]

lemma contains_eq_false_iff {a : String} {l : List String} :
    l.contains a = false ↔ a ∉ l := by
  rw [Bool.eq_false_iff, Ne, contains_eq_true_iff]

lemma video_deleted_pending_eq (fs : FS) (inst : VideoInstance)
    (w : DispatchState) :
    (video_deleted_cleanup_files fs inst w).pending
      = w.pending
        ++ (match inst.video_file with
            | some p =>
              if fs.files.contains p = true then
                [{ queue := "default", task := "delete_hls_outputs", args := [p] },
                 { queue := "default", task := "safe_remove", args := [p] }]
              else []
            | none => [])
        ++ (match inst.thumbnail_url with
            | some t =>
              if fs.files.contains t = true then
                [{ queue := "default", task := "safe_remove", args := [t] }]
              else []
            | none => []) := by
  rcases hv : inst.video_file with - | p <;>
    rcases ht : inst.thumbnail_url with - | t <;>
      simp only [video_deleted_cleanup_files, hv, ht, enqueue_after_commit] <;>
        first
        | (split_ifs <;> simp)
        | simp

/-- C10: on a `Video` deletion event, the HLS-outputs cleanup job and the
source-file removal job are registered when the source video file exists on
disk, and thumbnail removal when the thumbnail file exists; when the source
file is absent (no attached file, or its path is not a file on disk) the
only callback that can newly be registered is a thumbnail removal for an
existing thumbnail file — in particular neither an HLS-outputs cleanup job
nor a source-file removal job is enqueued, whatever directories `fs.dirs`
holds, and no new callback targets the absent video path; likewise, when the
thumbnail is absent no new callback targets the thumbnail path. -/
theorem C10_deletion_enqueues_only_existing (fs : FS) (inst : VideoInstance)
    (w : DispatchState) :
    (∀ p, inst.video_file = some p → fs.files.contains p = true →
      ({ queue := "default", task := "delete_hls_outputs", args := [p] }
          : PendingEnqueue) ∈ (video_deleted_cleanup_files fs inst w).pending ∧
      ({ queue := "default", task := "safe_remove", args := [p] }
          : PendingEnqueue) ∈ (video_deleted_cleanup_files fs inst w).pending) ∧
    ((inst.video_file = none ∨
        ∃ p, inst.video_file = some p ∧ fs.files.contains p = false) →
      ∀ cb, cb ∈ (video_deleted_cleanup_files fs inst w).pending →
        cb ∉ w.pending →
        ∃ t, inst.thumbnail_url = some t ∧ fs.files.contains t = true ∧
          cb = { queue := "default", task := "safe_remove", args := [t] }) ∧
    (∀ p, inst.video_file = some p → fs.files.contains p = false →
      ∀ cb, cb ∈ (video_deleted_cleanup_files fs inst w).pending →
        cb ∉ w.pending → cb.args ≠ [p]) ∧
    (∀ t, inst.thumbnail_url = some t → fs.files.contains t = true →
      ({ queue := "default", task := "safe_remove", args := [t] }
          : PendingEnqueue) ∈ (video_deleted_cleanup_files fs inst w).pending) ∧
    (∀ t, inst.thumbnail_url = some t → fs.files.contains t = false →
      ∀ cb, cb ∈ (video_deleted_cleanup_files fs inst w).pending →
        cb ∉ w.pending → cb.args ≠ [t]) := by
  refine ⟨?_, ?_, ?_, ?_, ?_⟩
  · intro p hp hcp
    rw [video_deleted_pending_eq]
    constructor <;> simp [hp, List.mem_append, contains_eq_true_iff.mp hcp]
  · intro habs cb hmem hnot
    rw [video_deleted_pending_eq] at hmem
    have hvid : (match inst.video_file with
        | some p =>
          if fs.files.contains p = true then
            [({ queue := "default", task := "delete_hls_outputs", args := [p] }
                : PendingEnqueue),
             { queue := "default", task := "safe_remove", args := [p] }]
          else []
        | none => ([] : List PendingEnqueue)) = [] := by
      rcases habs with hnone | ⟨p, hp, hcp⟩
      · simp [hnone]
      · simp [hp, contains_eq_false_iff.mp hcp]
    rw [hvid] at hmem
    rcases ht : inst.thumbnail_url with - | t
    · simp only [ht, List.append_nil, List.nil_append] at hmem
      exact absurd hmem hnot
    · simp only [ht] at hmem
      by_cases hct : fs.files.contains t = true
      · rw [if_pos hct] at hmem
        simp only [List.append_nil, List.nil_append, List.mem_append,
          List.mem_singleton] at hmem
        rcases hmem with hmem | hmem
        · exact absurd hmem hnot
        · exact ⟨t, rfl, hct, hmem⟩
      · rw [if_neg hct] at hmem
        simp only [List.append_nil, List.nil_append] at hmem
        exact absurd hmem hnot
  · intro p hp hcp cb hmem hnot
    rw [video_deleted_pending_eq] at hmem
    rw [hp] at hmem
    dsimp only at hmem
    rw [if_neg (by simp [contains_eq_false_iff.mp hcp]),
      List.append_nil] at hmem
    rcases ht : inst.thumbnail_url with - | t
    · rw [ht] at hmem
      dsimp only at hmem
      rw [List.append_nil] at hmem
      exact absurd hmem hnot
    · rw [ht] at hmem
      dsimp only at hmem
      by_cases hct : fs.files.contains t = true
      · rw [if_pos hct] at hmem
        have htp : t ≠ p := by
          intro htp; rw [htp, hcp] at hct; cases hct
        simp only [List.mem_append, List.mem_singleton] at hmem
        rcases hmem with hmem | hmem
        · exact absurd hmem hnot
        · subst hmem; simp [htp]
      · rw [if_neg hct, List.append_nil] at hmem
        exact absurd hmem hnot
  · intro t htt hct
    rw [video_deleted_pending_eq]
    simp [htt, List.mem_append, contains_eq_true_iff.mp hct]
  · intro t htt hct cb hmem hnot
    rw [video_deleted_pending_eq] at hmem
    rw [htt] at hmem
    dsimp only at hmem
    rw [if_neg (by simp [contains_eq_false_iff.mp hct]), List.append_nil] at hmem
    rcases hv : inst.video_file with - | p
    · rw [hv] at hmem
      dsimp only at hmem
      simp only [List.append_nil] at hmem
      exact absurd hmem hnot
    · rw [hv] at hmem
      dsimp only at hmem
      by_cases hcp : fs.files.contains p = true
      · rw [if_pos hcp] at hmem
        have hpt : p ≠ t := by
          intro hpt; rw [hpt, hct] at hcp; cases hcp
        simp only [List.mem_append, List.mem_cons, List.mem_singleton,
          List.not_mem_nil, or_false] at hmem
        rcases hmem with hmem | hmem | hmem
        · exact absurd hmem hnot
        · subst hmem; simp [hpt]
        · subst hmem; simp [hpt]
      · rw [if_neg hcp, List.append_nil] at hmem
        exact absurd hmem hnot

/-- C10, witness: with the source file present on disk, the deletion handler
registers the HLS-outputs cleanup callback for that path. -/
theorem C10_witness :
    ({ queue := "default", task := "delete_hls_outputs", args := ["/v/m.mp4"] }
        : PendingEnqueue)
      ∈ (video_deleted_cleanup_files fsWithSource
          { video_file := some "/v/m.mp4", thumbnail_url := none }
          { pending := [], queued := [] }).pending :=
  ((C10_deletion_enqueues_only_existing fsWithSource
      { video_file := some "/v/m.mp4", thumbnail_url := none }
      { pending := [], queued := [] }).1 "/v/m.mp4" rfl (by decide)).1

/-! ## Claims on the streaming server -/

/-- C3, counterexample: the full HTTP responses are not indistinguishable.
For the invalid resolution `999p`, an existing video id yields the 404 detail
`Video or Manifest not found.` while a nonexistent id yields the 404 detail
`Video not found.` — the response body reveals whether the id exists (the
status code is 404 in both cases). -/
theorem C3_counterexample :
    HLSPlaylistView_get [(1, "/v/m.mp4")] { files := [], dirs := [] } 1 "999p"
        = HttpResponse.notFound "Video or Manifest not found." ∧
    HLSPlaylistView_get [(1, "/v/m.mp4")] { files := [], dirs := [] } 2 "999p"
        = HttpResponse.notFound "Video not found." ∧
    HLSPlaylistView_get [(1, "/v/m.mp4")] { files := [], dirs := [] } 1 "999p"
      ≠ HLSPlaylistView_get [(1, "/v/m.mp4")] { files := [], dirs := [] } 2 "999p" := by
  decide

/-- C3, amended: for every request with an invalid resolution label, and for
every segment request with an invalid resolution or segment name, the HTTP
status is 404 (never 400), and the status — though not the detail string —
is the same whether or not the requested video id exists. -/
theorem C3_invalid_input_status (db : List (Nat × String)) (fs : FS)
    (movie_id other_id : Nat) (resolution segment : String)
    (hbad : validate_resolution resolution ≠ Except.ok () ∨
      validate_segment_name segment ≠ Except.ok ()) :
    ((validate_resolution resolution ≠ Except.ok ()) →
      (HLSPlaylistView_get db fs movie_id resolution).status = 404 ∧
      (HLSPlaylistView_get db fs movie_id resolution).status
        = (HLSPlaylistView_get db fs other_id resolution).status) ∧
    (HLSSegmentView_get db fs movie_id resolution segment).status = 404 ∧
    (HLSSegmentView_get db fs movie_id resolution segment).status
      = (HLSSegmentView_get db fs other_id resolution segment).status := by
  have hplay : ∀ i : Nat, validate_resolution resolution ≠ Except.ok () →
      (HLSPlaylistView_get db fs i resolution).status = 404 := by
    intro i hr
    unfold HLSPlaylistView_get
    cases get_video db i with
    | none => rfl
    | some path =>
      cases hv : validate_resolution resolution with
      | error e => rfl
      | ok u => cases u; exact absurd hv hr
  have hseg : ∀ i : Nat,
      (HLSSegmentView_get db fs i resolution segment).status = 404 := by
    intro i
    unfold HLSSegmentView_get
    cases get_video db i with
    | none => rfl
    | some path =>
      cases hv : validate_resolution resolution with
      | error e => rfl
      | ok u =>
        cases u
        cases hs : validate_segment_name segment with
        | error e => rfl
        | ok u2 =>
          cases u2
          rcases hbad with hbad | hbad
          · exact absurd hv hbad
          · exact absurd hs hbad
  refine ⟨fun hr => ⟨hplay movie_id hr, ?_⟩, hseg movie_id, ?_⟩
  · rw [hplay movie_id hr, hplay other_id hr]
  · rw [hseg movie_id, hseg other_id]

/-- C3, witness: the amended status property at a concrete invalid
resolution, one existing and one nonexistent id. -/
theorem C3_witness :
    (HLSSegmentView_get [(1, "/v/m.mp4")] { files := [], dirs := [] }
        1 "999p" "segment_000.ts").status = 404 :=
  (C3_invalid_input_status [(1, "/v/m.mp4")] { files := [], dirs := [] }
      1 2 "999p" "segment_000.ts" (Or.inl (by decide))).2.1

end Videoflix
